import Mathlib

/-!
# FrontendAssignment: `InputField` and `DataTable`

A shallow embedding of the two components of `src/FrontendAssignment/src/App.jsx`.

* A component is a pure function of its props and of its local state (the `useState` cells).
  An event handler is a function from the state of the render it closes over to the next
  state, together with the calls it makes on the callbacks it was given.
* Rows are object references; `Heap` reads a property of the object behind a reference, so that
  `includes` and `!==` on rows are equality of references.
* What the language runtime supplies and the source does not define (`localeCompare`, the
  string-to-number conversion behind `<`) is collected in `Host` and taken as a parameter.
  Theorems about the order of sorted rows assume that `localeCompare` is a consistent
  comparison, as the language standard requires of it; `exampleHost` is one such host, on which
  the model is run.
-/

namespace Assignment

/-! ## Values, rows and the host -/

/-- Values read from a row property. `undefined` is what a missing property reads as; numbers
are the integers, on which `<` and `>` are exact. -/
inductive Value where
  | undefined
  | num (n : Int)
  | str (s : String)
  deriving DecidableEq, Repr

/-- Rows are object references. -/
abbrev Row := Nat

/-- Property read `row[key]`. -/
abbrev Heap := Row → String → Value

/-- Functions of the language runtime that the source calls but does not define. -/
structure Host where
  /-- The method `a.localeCompare(b)`: negative, zero or positive. -/
  localeCompare : String → String → Int
  /-- The conversion of a string operand of `<` to a number, `none` for `NaN`. -/
  toNumber : String → Option Int
  /-- Text a template literal produces for the member every object inherits under a name. -/
  inheritedText : String → String

/-- A consistent comparison function in the sense of the language standard, which requires
`localeCompare` to be one: the sign is antisymmetric and `≤ 0` is transitive. -/
structure Consistent (cmp : String → String → Int) : Prop where
  antisymm : ∀ a b, cmp a b < 0 ↔ 0 < cmp b a
  trans : ∀ a b c, cmp a b ≤ 0 → cmp b c ≤ 0 → cmp a c ≤ 0

/-- Lexicographic comparison of two lists of characters by code point. -/
def compareChars : List Char → List Char → Int
  | [], [] => 0
  | [], _ :: _ => -1
  | _ :: _, [] => 1
  | a :: as, b :: bs =>
    if a.toNat < b.toNat then -1
    else if b.toNat < a.toNat then 1
    else compareChars as bs

/-- Comparison by code points, a consistent comparison used to run the model on examples. -/
def codePointCompare (a b : String) : Int :=
  compareChars a.data b.data

/-- A host whose collation is by code points and whose number conversion reads decimals. -/
def exampleHost : Host where
  localeCompare := codePointCompare
  toNumber := String.toInt?
  inheritedText := fun name => "function " ++ name ++ "() \x7b [native code] \x7d"

/-- The numeric reading of an operand of `<` when the operands are not both strings. -/
def toNumeric (host : Host) : Value → Option Int
  | .undefined => none
  | .num n => some n
  | .str s => host.toNumber s

/-- The operator `a < b` on operands that are not both strings; `a > b` is `jsLess b a`. -/
def jsLess (host : Host) (a b : Value) : Bool :=
  match toNumeric host a, toNumeric host b with
  | some m, some n => decide (m < n)
  | _, _ => false

/-- The conversion `String(value)` of the default cell renderer. -/
def jsString : Value → String
  | .undefined => "undefined"
  | .num n => toString n
  | .str s => s

/-- The method `Array.prototype.sort(compareFn)` on a copy: a stable sort, in which `a` stays
before `b` when `compareFn a b ≤ 0`. The standard fixes the resulting order when `compareFn` is
a consistent comparison, and every stable sort then yields it; for other comparisons only the
elements of the result are fixed, and the theorems about the order assume consistency. -/
def arraySort {α : Type} (compareFn : α → α → Int) (xs : List α) : List α :=
  xs.insertionSort (fun a b => compareFn a b ≤ 0)

/-! ## DataTable -/

/-- The two non-null values of `sortDirection`. -/
inductive SortDirection where
  | asc
  | desc
  deriving DecidableEq, Repr

/-- Text of a direction, as used in `aria-sort`. -/
def SortDirection.text : SortDirection → String
  | .asc => "asc"
  | .desc => "desc"

/-- A column descriptor. -/
structure Column where
  key : String
  title : String
  dataIndex : String
  sortable : Bool := false
  render : Option (Value → Row → String) := none

/-- Props of `DataTable`; `onRowSelect` records whether the callback is supplied. -/
structure TableProps where
  data : List Row
  columns : List Column
  loading : Bool := false
  selectable : Bool := false
  onRowSelect : Bool := false

/-- The three `useState` cells of `DataTable`. -/
structure TableState where
  selectedRows : List Row := []
  sortColumn : Option String := none
  sortDirection : Option SortDirection := none
  deriving DecidableEq, Repr

/-- State of a freshly mounted `DataTable`. -/
def TableState.initial : TableState := {}

/-- The comparator passed to `sort` in `sortedData`. -/
def compareRows (host : Host) (heap : Heap) (sortColumn : String) (sortDirection : SortDirection)
    (a b : Row) : Int :=
  let aValue := heap a sortColumn
  let bValue := heap b sortColumn
  match aValue, bValue with
  | .str x, .str y =>
    if sortDirection = .asc then host.localeCompare x y else host.localeCompare y x
  | _, _ =>
    if jsLess host aValue bValue then (if sortDirection = .asc then -1 else 1)
    else if jsLess host bValue aValue then (if sortDirection = .asc then 1 else -1)
    else 0

/-- The memoised `sortedData`. The guard `!sortColumn || !sortDirection` is by truthiness, so
the empty accessor counts as no sort column. -/
def sortedData (host : Host) (heap : Heap) (data : List Row) (s : TableState) : List Row :=
  match s.sortColumn, s.sortDirection with
  | some sortColumn, some sortDirection =>
    if sortColumn = "" then data
    else arraySort (compareRows host heap sortColumn sortDirection) data
  | _, _ => data

/-- The handler `handleRowSelection`: the next state and the calls made to `onRowSelect`. -/
def handleRowSelection (p : TableProps) (s : TableState) (row : Row) :
    TableState × List (List Row) :=
  let isSelected := s.selectedRows.contains row
  let newSelectedRows :=
    if isSelected then s.selectedRows.filter (fun r => r != row) else s.selectedRows ++ [row]
  ({ s with selectedRows := newSelectedRows }, if p.onRowSelect then [newSelectedRows] else [])

/-- The handler `handleSort`. -/
def handleSort (s : TableState) (columnKey : String) : TableState :=
  if s.sortColumn = some columnKey then
    if s.sortDirection = some .asc then { s with sortDirection := some .desc }
    else if s.sortDirection = some .desc then { s with sortColumn := none, sortDirection := none }
    else s
  else { s with sortColumn := some columnKey, sortDirection := some .asc }

/-- The `onClick` of a header cell: `column.sortable && handleSort(column.dataIndex)`. It is
attached whatever `loading` is. -/
def headerClick (_p : TableProps) (s : TableState) (column : Column) : TableState :=
  if column.sortable then handleSort s column.dataIndex else s

/-- The state after a sequence of header clicks. -/
def headerClicks (p : TableProps) (s : TableState) (clicks : List Column) : TableState :=
  clicks.foldl (headerClick p) s

/-- The attribute `aria-sort` of a header cell. -/
def ariaSort (s : TableState) (column : Column) : String :=
  if s.sortColumn = some column.dataIndex then
    match s.sortDirection with
    | some d => d.text
    | none => "none"
  else "none"

/-- A rendered row of the table body. -/
inductive BodyRow where
  | loading (colSpan : Nat)
  | noData (colSpan : Nat)
  | data (rowIndex : Nat) (row : Row) (highlighted : Bool) (ariaSelected : Bool)
      (checkbox : Option Bool) (cells : List String)
  deriving DecidableEq, Repr

/-- The checkbox state of a rendered row, when it has a checkbox. -/
def BodyRow.checkbox? : BodyRow → Option Bool
  | .data _ _ _ _ c _ => c
  | _ => none

/-- The row object a rendered row displays, when it displays one. -/
def BodyRow.row? : BodyRow → Option Row
  | .data _ r _ _ _ _ => some r
  | _ => none

/-- The cell text of one column for one row. -/
def renderCell (heap : Heap) (row : Row) (column : Column) : String :=
  match column.render with
  | some f => f (heap row column.dataIndex) row
  | none => jsString (heap row column.dataIndex)

/-- The function `renderTableContent`. -/
def renderTableContent (host : Host) (heap : Heap) (p : TableProps) (s : TableState) :
    List BodyRow :=
  let colSpan := p.columns.length + (if p.selectable then 1 else 0)
  if p.loading then [.loading colSpan]
  else if p.data.length = 0 then [.noData colSpan]
  else
    (sortedData host heap p.data s).enum.map fun (rowIndex, row) =>
      .data rowIndex row (s.selectedRows.contains row)
        (p.selectable && s.selectedRows.contains row)
        (if p.selectable then some (s.selectedRows.contains row) else none)
        (p.columns.map (renderCell heap row))

/-- The rows of the table body in display order. -/
def displayedRows (host : Host) (heap : Heap) (p : TableProps) (s : TableState) : List Row :=
  (renderTableContent host heap p s).filterMap BodyRow.row?

/-! ### The demo data of `App` -/

/-- The `userData` of `App`, as references 1 to 4. -/
def userData : List Row := [1, 2, 3, 4]

/-- The objects behind the references of `userData`. -/
def userHeap : Heap := fun row key =>
  match row, key with
  | 1, "id" => .num 1
  | 1, "name" => .str "John Doe"
  | 1, "email" => .str "john@example.com"
  | 1, "role" => .str "Developer"
  | 2, "id" => .num 2
  | 2, "name" => .str "Jane Smith"
  | 2, "email" => .str "jane@example.com"
  | 2, "role" => .str "Designer"
  | 3, "id" => .num 3
  | 3, "name" => .str "Peter Jones"
  | 3, "email" => .str "peter@example.com"
  | 3, "role" => .str "Manager"
  | 4, "id" => .num 4
  | 4, "name" => .str "Sarah Lee"
  | 4, "email" => .str "sarah@example.com"
  | 4, "role" => .str "Analyst"
  | _, _ => .undefined

/-- The first of the `userColumns` of `App`. -/
def nameColumn : Column :=
  { key := "name", title := "Full Name", dataIndex := "name", sortable := true }

/-- The second of the `userColumns` of `App`. -/
def emailColumn : Column :=
  { key := "email", title := "Email Address", dataIndex := "email" }

/-- The third of the `userColumns` of `App`. -/
def roleColumn : Column :=
  { key := "role", title := "Role", dataIndex := "role", sortable := true }

/-- The `userColumns` of `App`. -/
def userColumns : List Column := [nameColumn, emailColumn, roleColumn]

/-- The props `App` passes to `DataTable`. -/
def userProps : TableProps :=
  { data := userData, columns := userColumns, selectable := true, onRowSelect := true }

/-! ## InputField -/

/-- Props of `InputField`. An option that is `none` is an omitted prop, which takes the default
of the parameter list; `onChange` records whether the callback is supplied. -/
structure InputProps where
  value : String
  onChange : Bool := false
  label : Option String := none
  placeholder : Option String := none
  helperText : Option String := none
  errorMessage : Option String := none
  disabled : Bool := false
  invalid : Bool := false
  variant : Option String := none
  size : Option String := none
  type : Option String := none
  showClear : Bool := false

/-- The destructured `variant`, with its default. -/
def InputProps.variantName (p : InputProps) : String := p.variant.getD "outlined"

/-- The destructured `size`, with its default. -/
def InputProps.sizeName (p : InputProps) : String := p.size.getD "md"

/-- The destructured `type`, with its default. -/
def InputProps.typeName (p : InputProps) : String := p.type.getD "text"

/-- The `useState` cell of `InputField`. -/
structure InputState where
  isPasswordVisible : Bool := false
  deriving DecidableEq, Repr

/-- What a handler of `InputField` does besides updating the state: the `target.value` of the
events it passes to `onChange`, and the number of times it focuses the input. -/
structure InputEffects where
  onChangeCalls : List String
  focusCalls : Nat
  deriving DecidableEq, Repr

/-- Truthiness of an optional string prop: supplied and not empty. -/
def truthy : Option String → Bool
  | some s => s != ""
  | none => false

/-- The result of reading a property of an object literal. -/
inductive Member where
  | own (text : String)
  | inherited (name : String)
  | missing
  deriving DecidableEq, Repr

/-- Names under which every object literal inherits a member. -/
def inheritedKeys : List String :=
  ["constructor", "hasOwnProperty", "isPrototypeOf", "propertyIsEnumerable", "toLocaleString",
   "toString", "valueOf", "__proto__", "__defineGetter__", "__defineSetter__",
   "__lookupGetter__", "__lookupSetter__"]

/-- The read `table[key]` of an object literal with the given own properties. -/
def member (table : List (String × String)) (key : String) : Member :=
  match table.lookup key with
  | some text => .own text
  | none => if key ∈ inheritedKeys then .inherited key else .missing

/-- The text a template literal produces for a member. -/
def Member.text (host : Host) : Member → String
  | .own text => text
  | .inherited name => host.inheritedText name
  | .missing => "undefined"

/-- The handler `handleClear`. -/
def handleClear (p : InputProps) (s : InputState) : InputState × InputEffects :=
  (s, { onChangeCalls := if p.onChange then [""] else [], focusCalls := 1 })

/-- The `onClick` of the password toggle: `setIsPasswordVisible(!isPasswordVisible)`. -/
def togglePassword (s : InputState) : InputState :=
  { isPasswordVisible := !s.isPasswordVisible }

/-- The constant `baseClasses`. -/
def baseClasses : String :=
  "\n    w-full block appearance-none transition-colors duration-200 focus:outline-none" ++
  "\n    rounded-md border border-transparent" ++
  "\n    peer bg-white dark:bg-zinc-800 dark:border-zinc-700\n  "

/-- The own properties of the object literal behind `sizeClasses`. -/
def sizeTable : List (String × String) :=
  [("sm", "p-2 text-sm"), ("md", "p-3 text-base"), ("lg", "p-4 text-lg")]

/-- The constant `sizeClasses`. -/
def sizeClasses (p : InputProps) : Member := member sizeTable p.sizeName

/-- The interpolation on `invalid` shared by the three variants. -/
def invalidClasses (invalid : Bool) : String :=
  if invalid then "border-red-500 dark:border-red-500"
  else "focus:border-blue-500 dark:focus:border-blue-500"

/-- The own properties of the object literal behind `variantClasses`. -/
def variantTable (p : InputProps) : List (String × String) :=
  [ ("outlined",
      "\n      border-2 border-fuchsia-300 dark:border-fuchsia-700\n      " ++
      invalidClasses p.invalid ++ "\n      " ++
      (if p.disabled then "bg-slate-100 text-slate-400 dark:bg-zinc-700 dark:text-zinc-500"
        else "bg-white dark:bg-zinc-900") ++ "\n    "),
    ("filled",
      "\n      bg-fuchsia-100 dark:bg-fuchsia-900/50\n      " ++
      invalidClasses p.invalid ++ "\n      " ++
      (if p.disabled then "text-slate-400 dark:text-zinc-500"
        else "text-slate-800 dark:text-zinc-200") ++ "\n    "),
    ("ghost",
      "\n      bg-transparent\n      " ++
      invalidClasses p.invalid ++ "\n      " ++
      (if p.disabled then "text-slate-400 dark:text-zinc-500"
        else "text-slate-800 dark:text-zinc-200") ++ "\n    ") ]

/-- The constant `variantClasses`. -/
def variantClasses (p : InputProps) : Member := member (variantTable p) p.variantName

/-- The `className` of the input element. -/
def inputClassName (host : Host) (p : InputProps) : String :=
  baseClasses ++ " " ++ (variantClasses p).text host ++ " " ++ (sizeClasses p).text host ++
    " pr-10"

/-- The `type` attribute of the input element. -/
def inputType (p : InputProps) (s : InputState) : String :=
  if p.typeName = "password" && s.isPasswordVisible then "text" else p.typeName

/-- The condition under which the clear button is rendered. -/
def showsClearButton (p : InputProps) : Bool :=
  p.value != "" && p.showClear && !p.disabled && !p.invalid

/-- The condition under which the password toggle is rendered. -/
def showsPasswordToggle (p : InputProps) : Bool :=
  p.typeName = "password"

/-- What `InputField` renders, as far as behaviour goes. -/
structure InputView where
  label : Option String
  inputType : String
  value : String
  placeholder : Option String
  disabled : Bool
  className : String
  ariaInvalid : Bool
  ariaDescribedby : Option String
  ariaLabel : String
  clearButton : Bool
  toggleButton : Option String
  message : Option (String × String)
  deriving DecidableEq, Repr

/-- The element `InputField` returns. -/
def renderInputField (host : Host) (p : InputProps) (s : InputState) : InputView where
  label := if truthy p.label then p.label else none
  inputType := inputType p s
  value := p.value
  placeholder := p.placeholder
  disabled := p.disabled
  className := inputClassName host p
  ariaInvalid := p.invalid
  ariaDescribedby :=
    if truthy p.errorMessage then some "error-message"
    else if truthy p.helperText then some "helper-text"
    else none
  ariaLabel :=
    if truthy p.label then p.label.getD ""
    else if truthy p.placeholder then p.placeholder.getD ""
    else "Input field"
  clearButton := showsClearButton p
  toggleButton :=
    if showsPasswordToggle p then
      some (if s.isPasswordVisible then "Hide password" else "Show password")
    else none
  message :=
    if truthy p.errorMessage && p.invalid then some ("error-message", p.errorMessage.getD "")
    else if truthy p.helperText then some ("helper-text", p.helperText.getD "")
    else none

/-! ## Auxiliary definitions and example inputs -/

/-- A sort state is well formed when the column and the direction are set together. -/
def TableState.sortWellFormed (s : TableState) : Prop :=
  (s.sortColumn = none ∧ s.sortDirection = none) ∨
    (s.sortColumn.isSome = true ∧ s.sortDirection.isSome = true)

/-- The string a row shows in a column, empty when the value is not a string. -/
def stringAt (heap : Heap) (col : String) (r : Row) : String :=
  match heap r col with
  | .str s => s
  | _ => ""

/-- The number a row shows in a column, zero when the value is not a number. -/
def numberAt (heap : Heap) (col : String) (r : Row) : Int :=
  match heap r col with
  | .num n => n
  | _ => 0

/-- A rendered row without its position in the body. -/
def BodyRow.unindexed : BodyRow → BodyRow
  | .data _ row highlighted ariaSelected checkbox cells =>
    .data 0 row highlighted ariaSelected checkbox cells
  | b => b

/-- Props of the demo table while its data is loading. -/
def loadingProps : TableProps := { userProps with loading := true }

/-- Rows 1 and 2 share the role Developer; a third row has another role. -/
def teamHeap : Heap := fun row key =>
  match row, key with
  | 1, "name" => .str "John Doe"
  | 1, "role" => .str "Developer"
  | 2, "name" => .str "Jane Smith"
  | 2, "role" => .str "Developer"
  | 3, "name" => .str "Peter Jones"
  | 3, "role" => .str "Manager"
  | _, _ => .undefined

/-- Two rows whose value under the empty accessor is out of order. -/
def blankHeap : Heap := fun row key =>
  match row, key with
  | 1, "" => .str "b"
  | 2, "" => .str "a"
  | _, _ => .undefined

/-- A sortable column whose accessor is the empty string. -/
def blankColumn : Column :=
  { key := "blank", title := "Blank", dataIndex := "", sortable := true }

/-- A disabled password field. -/
def disabledPassword : InputProps :=
  { value := "secret", onChange := true, type := some "password", disabled := true }

/-- A text field holding `abc` with a clear button. -/
def abcField : InputProps := { value := "abc", onChange := true, showClear := true }

/-- A field with a variant and a size that are not recognised. -/
def fancyField : InputProps := { value := "abc", variant := some "fancy", size := some "xl" }

/-! # Theorems -/

/-! ## Sorting state -/

theorem sortWellFormed_headerClick (p : TableProps) (s : TableState) (c : Column)
    (h : s.sortWellFormed) : (headerClick p s c).sortWellFormed := by
  unfold headerClick handleSort
  rcases h with ⟨h1, h2⟩ | ⟨h1, h2⟩
  · by_cases hs : c.sortable = true <;> simp [hs, h1, h2, TableState.sortWellFormed]
  · by_cases hs : c.sortable = true
    · by_cases hc : s.sortColumn = some c.dataIndex
      · rcases hd : s.sortDirection with _ | d
        · simp [hd] at h2
        · cases d <;> simp [hs, hc, hd, TableState.sortWellFormed]
      · simp [hs, hc, TableState.sortWellFormed]
    · simp [hs, TableState.sortWellFormed, h1, h2]

theorem sortWellFormed_headerClicks (p : TableProps) (clicks : List Column) :
    ∀ s : TableState, s.sortWellFormed → (headerClicks p s clicks).sortWellFormed := by
  induction clicks with
  | nil => intro s h; simpa [headerClicks] using h
  | cons c cs ih =>
    intro s h
    have := ih (headerClick p s c) (sortWellFormed_headerClick p s c h)
    simpa [headerClicks] using this

theorem headerClick_thrice (p : TableProps) (s : TableState) (c : Column)
    (hc : c.sortable = true) (h1 : s.sortColumn = none) (h2 : s.sortDirection = none) :
    headerClick p (headerClick p (headerClick p s c) c) c = s := by
  cases s
  simp_all [headerClick, handleSort]

theorem headerClicks_replicate_add_three (p : TableProps) (s : TableState) (c : Column)
    (hc : c.sortable = true) (h1 : s.sortColumn = none) (h2 : s.sortDirection = none) (n : Nat) :
    headerClicks p s (List.replicate (n + 3) c) = headerClicks p s (List.replicate n c) := by
  have : List.replicate (n + 3) c = c :: c :: c :: List.replicate n c := rfl
  rw [this]
  simp only [headerClicks, List.foldl_cons]
  rw [headerClick_thrice p s c hc h1 h2]

/-- C1: starting from no sort, after any sequence of header clicks a click on the sortable
column that is the current sort column advances its direction asc, desc, none, a click on any
other sortable column yields that column ascending, and `n` clicks on one sortable column give
none, asc or desc by `n % 3`. -/
theorem handleSort_cycle (p : TableProps) (selected : List Row) (clicks : List Column)
    (c : Column) (hc : c.sortable = true) :
    let s := headerClicks p { selectedRows := selected } clicks
    let s' := headerClick p s c
    (s.sortColumn = some c.dataIndex →
      (s.sortDirection = some .asc ∧
          s'.sortColumn = some c.dataIndex ∧ s'.sortDirection = some .desc) ∨
        (s.sortDirection = some .desc ∧ s'.sortColumn = none ∧ s'.sortDirection = none)) ∧
    (s.sortColumn ≠ some c.dataIndex →
      s'.sortColumn = some c.dataIndex ∧ s'.sortDirection = some .asc) ∧
    (∀ n : Nat,
      let t := headerClicks p { selectedRows := selected } (List.replicate n c)
      (n % 3 = 0 → t.sortColumn = none ∧ t.sortDirection = none) ∧
      (n % 3 = 1 → t.sortColumn = some c.dataIndex ∧ t.sortDirection = some .asc) ∧
      (n % 3 = 2 → t.sortColumn = some c.dataIndex ∧ t.sortDirection = some .desc)) := by
  intro s s'
  have hwf : s.sortWellFormed :=
    sortWellFormed_headerClicks p clicks _ (Or.inl ⟨rfl, rfl⟩)
  refine ⟨?_, ?_, ?_⟩
  · intro hcol
    rcases hwf with ⟨h1, _⟩ | ⟨_, h2⟩
    · simp [h1] at hcol
    · rcases hd : s.sortDirection with _ | d
      · simp [hd] at h2
      · cases d
        · left
          simp [s', headerClick, handleSort, hc, hcol, hd]
        · right
          simp [s', headerClick, handleSort, hc, hcol, hd]
  · intro hcol
    simp [s', headerClick, handleSort, hc, hcol]
  · intro n
    induction n using Nat.strong_induction_on with
    | _ n ih =>
      match n with
      | 0 => simp [headerClicks]
      | 1 => simp [headerClicks, headerClick, handleSort, hc]
      | 2 => simp [headerClicks, headerClick, handleSort, hc]
      | k + 3 =>
        have hk := ih k (by omega)
        have h3 := headerClicks_replicate_add_three p { selectedRows := selected } c hc rfl rfl k
        simp only [h3, Nat.add_mod_right]
        exact hk

/-- Witness of C1: after clicks on name, role, role the sort column is role, and one more click
on role clears the sort. -/
theorem handleSort_cycle_witness :
    roleColumn.sortable = true ∧
    (headerClicks userProps {} [nameColumn, roleColumn, roleColumn]).sortColumn = some "role" ∧
    (headerClick userProps (headerClicks userProps {} [nameColumn, roleColumn, roleColumn])
      roleColumn).sortColumn = none := by
  have h := handleSort_cycle userProps [] [nameColumn, roleColumn, roleColumn] roleColumn rfl
  refine ⟨rfl, by decide, ?_⟩
  rcases h.1 (by decide) with ⟨h1, _⟩ | ⟨_, h2, _⟩
  · exact absurd h1 (by decide)
  · exact h2

/-! ## The sort -/

theorem arraySort_perm {α : Type} (compareFn : α → α → Int) (xs : List α) :
    (arraySort compareFn xs).Perm xs :=
  List.perm_insertionSort _ xs

theorem mem_arraySort {α : Type} (compareFn : α → α → Int) (xs : List α) (x : α) :
    x ∈ arraySort compareFn xs ↔ x ∈ xs :=
  (arraySort_perm compareFn xs).mem_iff

/-- Inserting into a sorted list keeps it sorted when the relation is total and transitive on
the elements at hand. -/
theorem pairwise_orderedInsert_on {α : Type} (r : α → α → Prop) [DecidableRel r] (S : α → Prop)
    (htot : ∀ a b, S a → S b → r a b ∨ r b a)
    (htr : ∀ a b c, S a → S b → S c → r a b → r b c → r a c) (a : α) (ha : S a) :
    ∀ l : List α, (∀ x ∈ l, S x) → l.Pairwise r → (l.orderedInsert r a).Pairwise r := by
  intro l
  induction l with
  | nil => intro _ _; simp
  | cons b l ih =>
    intro hS hl
    have hb : S b := hS b (List.mem_cons_self _ _)
    have hSl : ∀ x ∈ l, S x := fun x hx => hS x (List.mem_cons_of_mem _ hx)
    rw [List.pairwise_cons] at hl
    by_cases hab : r a b
    · rw [List.orderedInsert, if_pos hab]
      refine List.pairwise_cons.2 ⟨?_, List.pairwise_cons.2 hl⟩
      intro x hx
      rcases List.mem_cons.1 hx with rfl | hx
      · exact hab
      · exact htr a b x ha hb (hSl x hx) hab (hl.1 x hx)
    · rw [List.orderedInsert, if_neg hab]
      refine List.pairwise_cons.2 ⟨?_, ih hSl hl.2⟩
      intro x hx
      rcases (List.mem_orderedInsert r).1 hx with rfl | hx
      · exact (htot x b ha hb).resolve_left hab
      · exact hl.1 x hx

/-- The sort yields a sorted list when the comparison is total and transitive on the input. -/
theorem arraySort_pairwise {α : Type} (compareFn : α → α → Int) (S : α → Prop)
    (htot : ∀ a b, S a → S b → compareFn a b ≤ 0 ∨ compareFn b a ≤ 0)
    (htr : ∀ a b c, S a → S b → S c → compareFn a b ≤ 0 → compareFn b c ≤ 0 → compareFn a c ≤ 0) :
    ∀ xs : List α, (∀ x ∈ xs, S x) →
      (arraySort compareFn xs).Pairwise (fun a b => compareFn a b ≤ 0) := by
  intro xs
  induction xs with
  | nil => intro _; simp [arraySort]
  | cons a l ih =>
    intro hS
    have hSl : ∀ x ∈ l, S x := fun x hx => hS x (List.mem_cons_of_mem _ hx)
    have hsorted := ih hSl
    unfold arraySort at hsorted ⊢
    rw [List.insertionSort]
    refine pairwise_orderedInsert_on _ S htot htr a (hS a (List.mem_cons_self _ _)) _ ?_ hsorted
    intro x hx
    exact hSl x ((List.mem_insertionSort _).1 hx)

theorem Consistent.total {cmp : String → String → Int} (h : Consistent cmp) (a b : String) :
    cmp a b ≤ 0 ∨ cmp b a ≤ 0 := by
  by_cases hab : cmp a b ≤ 0
  · exact Or.inl hab
  · right
    have := (h.antisymm b a).2 (not_le.1 hab)
    omega

theorem compareRows_str (host : Host) (heap : Heap) (col : String) (dir : SortDirection)
    (a b : Row) (x y : String) (ha : heap a col = .str x) (hb : heap b col = .str y) :
    compareRows host heap col dir a b =
      if dir = .asc then host.localeCompare x y else host.localeCompare y x := by
  simp [compareRows, ha, hb]

/-- On a column of strings and a non-empty accessor, the rows displayed in ascending order are
a permutation of the supplied rows, in non-decreasing order under `localeCompare`. -/
theorem sortedData_asc_sorted (host : Host) (hlc : Consistent host.localeCompare) (heap : Heap)
    (data selected : List Row) (col : String) (name : Row → String) (hcol : col ≠ "")
    (hstr : ∀ r ∈ data, heap r col = .str (name r)) :
    let shown := sortedData host heap data
      { selectedRows := selected, sortColumn := some col, sortDirection := some .asc }
    shown.Perm data ∧
      shown.Pairwise (fun a b => host.localeCompare (name a) (name b) ≤ 0) := by
  intro shown
  have hshown : shown = arraySort (compareRows host heap col .asc) data := by
    simp [shown, sortedData, hcol]
  have hcmp : ∀ a b, a ∈ data → b ∈ data →
      compareRows host heap col .asc a b = host.localeCompare (name a) (name b) := by
    intro a b ha hb
    simp [compareRows_str host heap col .asc a b _ _ (hstr a ha) (hstr b hb)]
  rw [hshown]
  refine ⟨arraySort_perm _ _, ?_⟩
  have hp := arraySort_pairwise (compareRows host heap col .asc) (fun r => r ∈ data)
    (fun a b ha hb => by
      rw [hcmp a b ha hb, hcmp b a hb ha]; exact hlc.total _ _)
    (fun a b c ha hb hc => by
      rw [hcmp a b ha hb, hcmp b c hb hc, hcmp a c ha hc]; exact hlc.trans _ _ _)
    data (fun x hx => hx)
  refine hp.imp_of_mem ?_
  intro a b ha hb hab
  rw [mem_arraySort] at ha hb
  rwa [hcmp a b ha hb] at hab

theorem orderedInsert_congr {α : Type} (r r' : α → α → Prop) [DecidableRel r] [DecidableRel r']
    (a : α) : ∀ l : List α, (∀ x ∈ l, (r a x ↔ r' a x)) →
      l.orderedInsert r a = l.orderedInsert r' a := by
  intro l
  induction l with
  | nil => intro _; rfl
  | cons b l ih =>
    intro h
    have hb := h b (List.mem_cons_self _ _)
    have hl := ih (fun x hx => h x (List.mem_cons_of_mem _ hx))
    by_cases hab : r a b
    · rw [List.orderedInsert, List.orderedInsert, if_pos hab, if_pos (hb.1 hab)]
    · rw [List.orderedInsert, List.orderedInsert, if_neg hab, if_neg (fun h' => hab (hb.2 h')), hl]

/-- The sort depends on the comparison only through its values on the elements of the input. -/
theorem arraySort_congr {α : Type} (f g : α → α → Int) :
    ∀ xs : List α, (∀ a ∈ xs, ∀ b ∈ xs, f a b = g a b) → arraySort f xs = arraySort g xs := by
  intro xs
  induction xs with
  | nil => intro _; rfl
  | cons a l ih =>
    intro h
    have hl := ih (fun x hx y hy => h x (List.mem_cons_of_mem _ hx) y (List.mem_cons_of_mem _ hy))
    unfold arraySort at hl ⊢
    rw [List.insertionSort, List.insertionSort, hl]
    apply orderedInsert_congr
    intro x hx
    have hx' : x ∈ l := (List.mem_insertionSort _).1 hx
    rw [h a (List.mem_cons_self _ _) x (List.mem_cons_of_mem _ hx')]

/-- Sorting by the mirrored comparison reverses the result when no two elements tie. -/
theorem arraySort_mirror {α : Type} (cmpA cmpD : α → α → Int)
    (hanti : ∀ a b, cmpA a b < 0 ↔ 0 < cmpA b a)
    (htrans : ∀ a b c, cmpA a b ≤ 0 → cmpA b c ≤ 0 → cmpA a c ≤ 0)
    (hmirror : ∀ a b, cmpD a b ≤ 0 ↔ cmpA b a ≤ 0) (xs : List α)
    (hties : xs.Pairwise (fun a b => cmpA a b ≠ 0)) :
    arraySort cmpD xs = (arraySort cmpA xs).reverse := by
  have htotA : ∀ a b, cmpA a b ≤ 0 ∨ cmpA b a ≤ 0 := by
    intro a b
    have := hanti b a
    omega
  have hsym : Symmetric (fun a b => cmpA a b ≠ 0) := by
    intro a b hab
    have h1 := hanti a b
    have h2 := hanti b a
    show cmpA b a ≠ 0
    have : cmpA a b ≠ 0 := hab
    omega
  have hA : (arraySort cmpA xs).Pairwise (fun a b => cmpA a b ≤ 0) :=
    arraySort_pairwise cmpA (fun _ => True) (fun a b _ _ => htotA a b)
      (fun a b c _ _ _ => htrans a b c) xs (fun _ _ => trivial)
  have hD : (arraySort cmpD xs).Pairwise (fun a b => cmpD a b ≤ 0) :=
    arraySort_pairwise cmpD (fun _ => True)
      (fun a b _ _ => by rw [hmirror a b, hmirror b a]; exact htotA b a)
      (fun a b c _ _ _ => by
        rw [hmirror a b, hmirror b c, hmirror a c]
        exact fun h1 h2 => htrans c b a h2 h1)
      xs (fun _ _ => trivial)
  have hR : (arraySort cmpA xs).reverse.Pairwise (fun a b => cmpD a b ≤ 0) := by
    rw [List.pairwise_reverse]
    exact hA.imp (fun {a b} h => (hmirror b a).2 h)
  have hperm : (arraySort cmpD xs).Perm (arraySort cmpA xs).reverse :=
    (arraySort_perm cmpD xs).trans
      ((List.reverse_perm _).trans (arraySort_perm cmpA xs)).symm
  refine List.Perm.eq_of_sorted ?_ hD hR hperm
  intro a b ha hb hab hba
  rw [mem_arraySort] at ha
  rw [List.mem_reverse, mem_arraySort] at hb
  by_contra hne
  have h0 : cmpA a b ≠ 0 := hties.forall hsym ha hb hne
  rw [hmirror] at hab hba
  have := hanti a b
  have := hanti b a
  omega

theorem compareRows_num (host : Host) (heap : Heap) (col : String) (dir : SortDirection)
    (a b : Row) (m n : Int) (ha : heap a col = .num m) (hb : heap b col = .num n) :
    compareRows host heap col dir a b =
      if m < n then (if dir = .asc then -1 else 1)
      else if n < m then (if dir = .asc then 1 else -1) else 0 := by
  simp [compareRows, ha, hb, jsLess, toNumeric]

/-- C3 (amended): under a non-empty accessor whose values in the supplied rows are all strings,
or all numbers, and no two of which compare equal, the rows displayed in descending order are
the exact reverse of the rows displayed in ascending order. -/
theorem sortedData_desc_reverse (host : Host) (hlc : Consistent host.localeCompare) (heap : Heap)
    (data selected : List Row) (col : String) (hcol : col ≠ "")
    (hkind : (∀ r ∈ data, ∃ s, heap r col = .str s) ∨ (∀ r ∈ data, ∃ n, heap r col = .num n))
    (hties : data.Pairwise (fun a b => compareRows host heap col .asc a b ≠ 0)) :
    sortedData host heap data
        { selectedRows := selected, sortColumn := some col, sortDirection := some .desc } =
      (sortedData host heap data
        { selectedRows := selected, sortColumn := some col, sortDirection := some .asc }).reverse := by
  simp only [sortedData, if_neg hcol]
  rcases hkind with hstr | hnum
  · have hval : ∀ r ∈ data, heap r col = .str (stringAt heap col r) := by
      intro r hr
      obtain ⟨s, hs⟩ := hstr r hr
      simp [stringAt, hs]
    have hA : ∀ a ∈ data, ∀ b ∈ data, compareRows host heap col .asc a b =
        host.localeCompare (stringAt heap col a) (stringAt heap col b) := by
      intro a ha b hb
      simp [compareRows_str host heap col .asc a b _ _ (hval a ha) (hval b hb)]
    have hD : ∀ a ∈ data, ∀ b ∈ data, compareRows host heap col .desc a b =
        host.localeCompare (stringAt heap col b) (stringAt heap col a) := by
      intro a ha b hb
      simp [compareRows_str host heap col .desc a b _ _ (hval a ha) (hval b hb)]
    rw [arraySort_congr _ _ data hA, arraySort_congr _ _ data hD]
    refine arraySort_mirror
      (fun a b => host.localeCompare (stringAt heap col a) (stringAt heap col b))
      (fun a b => host.localeCompare (stringAt heap col b) (stringAt heap col a))
      (fun a b => hlc.antisymm _ _) (fun a b c => hlc.trans _ _ _)
      (fun a b => Iff.rfl) data ?_
    exact hties.imp_of_mem (fun {a b} ha hb h => by rwa [hA a ha b hb] at h)
  · have hval : ∀ r ∈ data, heap r col = .num (numberAt heap col r) := by
      intro r hr
      obtain ⟨n, hn⟩ := hnum r hr
      simp [numberAt, hn]
    have hA : ∀ a ∈ data, ∀ b ∈ data, compareRows host heap col .asc a b =
        (if numberAt heap col a < numberAt heap col b then -1
          else if numberAt heap col b < numberAt heap col a then 1 else 0) := by
      intro a ha b hb
      simp [compareRows_num host heap col .asc a b _ _ (hval a ha) (hval b hb)]
    have hD : ∀ a ∈ data, ∀ b ∈ data, compareRows host heap col .desc a b =
        (if numberAt heap col a < numberAt heap col b then 1
          else if numberAt heap col b < numberAt heap col a then -1 else 0) := by
      intro a ha b hb
      simp [compareRows_num host heap col .desc a b _ _ (hval a ha) (hval b hb)]
    rw [arraySort_congr _ _ data hA, arraySort_congr _ _ data hD]
    refine arraySort_mirror _ _ ?_ ?_ ?_ data ?_
    · intro a b
      dsimp only
      split_ifs <;> omega
    · intro a b c
      dsimp only
      split_ifs <;> omega
    · intro a b
      dsimp only
      split_ifs <;> omega
    · exact hties.imp_of_mem (fun {a b} ha hb h => by rwa [hA a ha b hb] at h)

theorem compareChars_antisymm : ∀ a b : List Char, compareChars a b < 0 ↔ 0 < compareChars b a := by
  intro a
  induction a with
  | nil => intro b; cases b <;> simp [compareChars]
  | cons x a ih =>
    intro b
    cases b with
    | nil => simp [compareChars]
    | cons y b =>
      have := ih b
      simp only [compareChars]
      split_ifs <;> omega

theorem compareChars_trans : ∀ a b c : List Char,
    compareChars a b ≤ 0 → compareChars b c ≤ 0 → compareChars a c ≤ 0 := by
  intro a
  induction a with
  | nil => intro b c _ _; cases c <;> simp [compareChars]
  | cons x a ih =>
    intro b c
    cases b with
    | nil => simp [compareChars]
    | cons y b =>
      cases c with
      | nil => simp [compareChars]
      | cons z c =>
        have := ih b c
        simp only [compareChars]
        split_ifs <;> omega

theorem consistent_codePointCompare : Consistent codePointCompare :=
  ⟨fun a b => compareChars_antisymm a.data b.data,
   fun a b c => compareChars_trans a.data b.data c.data⟩

/-- With the four names of the demo in the order Sarah Lee, John Doe, Peter Jones, Jane Smith,
sorting by name ascending shows Jane Smith, John Doe, Peter Jones, Sarah Lee on every host that
orders these names alphabetically. -/
theorem sortedData_names (host : Host) (hlc : Consistent host.localeCompare)
    (h1 : host.localeCompare "Jane Smith" "John Doe" < 0)
    (h2 : host.localeCompare "John Doe" "Peter Jones" < 0)
    (h3 : host.localeCompare "Peter Jones" "Sarah Lee" < 0) :
    (sortedData host userHeap [4, 1, 3, 2]
        { sortColumn := some "name", sortDirection := some .asc }).map (stringAt userHeap "name") =
      ["Jane Smith", "John Doe", "Peter Jones", "Sarah Lee"] := by
  have a1 := hlc.antisymm "Jane Smith" "John Doe"
  have a2 := hlc.antisymm "John Doe" "Peter Jones"
  have a3 := hlc.antisymm "Peter Jones" "Sarah Lee"
  have t1 := hlc.trans "Sarah Lee" "John Doe" "Peter Jones"
  have t2 := hlc.trans "Peter Jones" "Jane Smith" "John Doe"
  have t3 := hlc.trans "Sarah Lee" "Jane Smith" "John Doe"
  have e1 : ¬ host.localeCompare "Peter Jones" "Jane Smith" ≤ 0 := by omega
  have e2 : ¬ host.localeCompare "John Doe" "Jane Smith" ≤ 0 := by omega
  have e3 : host.localeCompare "John Doe" "Peter Jones" ≤ 0 := by omega
  have e4 : ¬ host.localeCompare "Sarah Lee" "Peter Jones" ≤ 0 := by omega
  have e5 : ¬ host.localeCompare "Sarah Lee" "John Doe" ≤ 0 := by omega
  have e6 : ¬ host.localeCompare "Sarah Lee" "Jane Smith" ≤ 0 := by omega
  have n1 : userHeap 1 "name" = .str "John Doe" := rfl
  have n2 : userHeap 2 "name" = .str "Jane Smith" := rfl
  have n3 : userHeap 3 "name" = .str "Peter Jones" := rfl
  have n4 : userHeap 4 "name" = .str "Sarah Lee" := rfl
  have c32 : compareRows host userHeap "name" .asc 3 2 =
      host.localeCompare "Peter Jones" "Jane Smith" := by
    rw [compareRows_str host userHeap "name" .asc 3 2 _ _ n3 n2]; rfl
  have c12 : compareRows host userHeap "name" .asc 1 2 =
      host.localeCompare "John Doe" "Jane Smith" := by
    rw [compareRows_str host userHeap "name" .asc 1 2 _ _ n1 n2]; rfl
  have c13 : compareRows host userHeap "name" .asc 1 3 =
      host.localeCompare "John Doe" "Peter Jones" := by
    rw [compareRows_str host userHeap "name" .asc 1 3 _ _ n1 n3]; rfl
  have c42 : compareRows host userHeap "name" .asc 4 2 =
      host.localeCompare "Sarah Lee" "Jane Smith" := by
    rw [compareRows_str host userHeap "name" .asc 4 2 _ _ n4 n2]; rfl
  have c41 : compareRows host userHeap "name" .asc 4 1 =
      host.localeCompare "Sarah Lee" "John Doe" := by
    rw [compareRows_str host userHeap "name" .asc 4 1 _ _ n4 n1]; rfl
  have c43 : compareRows host userHeap "name" .asc 4 3 =
      host.localeCompare "Sarah Lee" "Peter Jones" := by
    rw [compareRows_str host userHeap "name" .asc 4 3 _ _ n4 n3]; rfl
  have hsorted : sortedData host userHeap [4, 1, 3, 2]
      { sortColumn := some "name", sortDirection := some .asc } = [2, 1, 3, 4] := by
    have hne : ("name" : String) ≠ "" := by decide
    simp only [sortedData, if_neg hne, arraySort, List.insertionSort, List.orderedInsert,
      c32, c12, c13, c42, c41, c43, if_neg e1, if_neg e2, if_pos e3, if_neg e4, if_neg e5,
      if_neg e6]
  rw [hsorted]
  simp only [List.map, stringAt, n1, n2, n3, n4]

/-- The names example on the host that collates by code points. -/
theorem sortedData_names_witness :
    (sortedData exampleHost userHeap [4, 1, 3, 2]
        { sortColumn := some "name", sortDirection := some .asc }).map (stringAt userHeap "name") =
      ["Jane Smith", "John Doe", "Peter Jones", "Sarah Lee"] :=
  sortedData_names exampleHost consistent_codePointCompare (by decide) (by decide) (by decide)

/-- Witness of C3 (amended): the names of the demo rows are pairwise distinct. -/
theorem sortedData_desc_reverse_witness :
    userData.Pairwise (fun a b => compareRows exampleHost userHeap "name" .asc a b ≠ 0) ∧
    sortedData exampleHost userHeap userData
        { sortColumn := some "name", sortDirection := some .desc } =
      (sortedData exampleHost userHeap userData
        { sortColumn := some "name", sortDirection := some .asc }).reverse :=
  ⟨by decide,
    sortedData_desc_reverse exampleHost consistent_codePointCompare userHeap userData []
      "name" (by decide)
      (Or.inl (by
        intro r hr
        simp only [userData, List.mem_cons, List.mem_singleton, List.not_mem_nil, or_false] at hr
        rcases hr with rfl | rfl | rfl | rfl <;> exact ⟨_, rfl⟩))
      (by decide)⟩

/-! ## Selection -/

/-- C4: `handleRowSelection` toggles membership of exactly the given row: a row that is not
selected is appended, every occurrence of a selected row is removed, membership of every other
row and the sort state are unchanged, and a supplied `onRowSelect` is invoked exactly once, with
the selection that is stored. -/
theorem handleRowSelection_toggle (p : TableProps) (s : TableState) (row : Row)
    (hcb : p.onRowSelect = true) :
    let r := handleRowSelection p s row
    (row ∉ s.selectedRows → r.1.selectedRows = s.selectedRows ++ [row]) ∧
    (row ∈ s.selectedRows →
      r.1.selectedRows = s.selectedRows.filter (fun x => x != row) ∧
        row ∉ r.1.selectedRows) ∧
    (∀ other : Row, other ≠ row → (other ∈ r.1.selectedRows ↔ other ∈ s.selectedRows)) ∧
    r.2 = [r.1.selectedRows] ∧
    r.1.sortColumn = s.sortColumn ∧ r.1.sortDirection = s.sortDirection := by
  intro r
  refine ⟨?_, ?_, ?_, ?_, rfl, rfl⟩
  · intro h
    simp [r, handleRowSelection, h]
  · intro h
    simp [r, handleRowSelection, h]
  · intro other hne
    by_cases h : row ∈ s.selectedRows
    · simp [r, handleRowSelection, h, hne]
    · simp [r, handleRowSelection, h, hne]
  · simp [r, handleRowSelection, hcb]

/-- Witness of C4: with John Doe and Jane Smith selected in the demo, toggling John Doe leaves
Jane Smith selected and reports that selection once. -/
theorem handleRowSelection_toggle_witness :
    userProps.onRowSelect = true ∧ (1 : Row) ∈ [1, 2] ∧
    (handleRowSelection userProps { selectedRows := [1, 2] } 1).1.selectedRows = [2] ∧
    (handleRowSelection userProps { selectedRows := [1, 2] } 1).2 = [[2]] :=
  ⟨rfl, by decide,
    ((handleRowSelection_toggle userProps { selectedRows := [1, 2] } 1 rfl).2.1 (by decide)).1,
    (handleRowSelection_toggle userProps { selectedRows := [1, 2] } 1 rfl).2.2.2.1⟩

/-! ## Sorting and selection -/

theorem sortedData_perm (host : Host) (heap : Heap) (data : List Row) (s : TableState) :
    (sortedData host heap data s).Perm data := by
  unfold sortedData
  split
  · split
    · exact List.Perm.refl _
    · exact arraySort_perm _ _
  · exact List.Perm.refl _

theorem headerClick_selectedRows (p : TableProps) (s : TableState) (c : Column) :
    (headerClick p s c).selectedRows = s.selectedRows := by
  unfold headerClick handleSort
  split_ifs <;> rfl

theorem map_unindexed_renderTableContent (host : Host) (heap : Heap) (p : TableProps)
    (s : TableState) (hl : p.loading = false) (hd : p.data ≠ []) :
    (renderTableContent host heap p s).map BodyRow.unindexed =
      (sortedData host heap p.data s).map fun row =>
        .data 0 row (s.selectedRows.contains row)
          (p.selectable && s.selectedRows.contains row)
          (if p.selectable then some (s.selectedRows.contains row) else none)
          (p.columns.map (renderCell heap row)) := by
  have hlen : ¬ p.data.length = 0 := by simpa using hd
  simp only [renderTableContent, hl, if_neg hlen, List.map_map, Bool.false_eq_true, if_false]
  conv_rhs => rw [← List.enum_map_snd (sortedData host heap p.data s)]
  rw [List.map_map]
  rfl

/-- C5: `handleSort`, and so every header click, leaves `selectedRows` unchanged; the rows
displayed after the click are the rows displayed before in another order, each rendered with
the same selected and checkbox status; selecting John Doe and then sorting by name ascending
leaves exactly John Doe selected. -/
theorem headerClick_keeps_selection (host : Host) (heap : Heap) (p : TableProps)
    (s : TableState) (c : Column) :
    (handleSort s c.dataIndex).selectedRows = s.selectedRows ∧
    (headerClick p s c).selectedRows = s.selectedRows ∧
    (displayedRows host heap p (headerClick p s c)).Perm (displayedRows host heap p s) ∧
    ((renderTableContent host heap p (headerClick p s c)).map BodyRow.unindexed).Perm
      ((renderTableContent host heap p s).map BodyRow.unindexed) ∧
    (headerClick userProps (handleRowSelection userProps {} 1).1 nameColumn).selectedRows
      = [1] := by
  have hsel := headerClick_selectedRows p s c
  have hrender : ((renderTableContent host heap p (headerClick p s c)).map BodyRow.unindexed).Perm
      ((renderTableContent host heap p s).map BodyRow.unindexed) := by
    by_cases hl : p.loading = true
    · simp [renderTableContent, hl]
    · have hl' : p.loading = false := by simpa using hl
      by_cases hd : p.data = []
      · simp [renderTableContent, hl', hd]
      · rw [map_unindexed_renderTableContent host heap p _ hl' hd,
          map_unindexed_renderTableContent host heap p _ hl' hd, hsel]
        exact ((sortedData_perm host heap p.data _).trans
          (sortedData_perm host heap p.data _).symm).map _
  have hsort : (handleSort s c.dataIndex).selectedRows = s.selectedRows := by
    unfold handleSort
    split_ifs <;> rfl
  refine ⟨hsort, hsel, ?_, hrender, by decide⟩
  have hrow : ∀ l : List BodyRow, l.filterMap BodyRow.row? =
      (l.map BodyRow.unindexed).filterMap BodyRow.row? := by
    intro l
    induction l with
    | nil => rfl
    | cons b l ih =>
      cases b <;> simp [List.filterMap_cons, BodyRow.row?, BodyRow.unindexed, ih]
  unfold displayedRows
  rw [hrow, hrow (renderTableContent host heap p s)]
  exact hrender.filterMap _

/-! ## Loading and empty states -/

/-- C6 fails as stated: while the demo table is loading, a click on the name header changes the
sort state. -/
theorem headerClick_while_loading :
    loadingProps.loading = true ∧ nameColumn ∈ loadingProps.columns ∧
    (headerClick loadingProps TableState.initial nameColumn).sortColumn = some "name" ∧
    (headerClick loadingProps TableState.initial nameColumn).sortDirection = some .asc ∧
    TableState.initial.sortColumn = none ∧ TableState.initial.sortDirection = none := by
  refine ⟨rfl, ?_, rfl, rfl, rfl, rfl⟩
  simp [loadingProps, userProps, userColumns]

/-- C6 (amended): while loading the body is the single loading placeholder, so no data row and
no checkbox is rendered, and a click on a sortable header still updates the sort state as
`handleSort` does; with no data and not loading the body is the single placeholder for no data.
-/
theorem renderTableContent_placeholders (host : Host) (heap : Heap) (p : TableProps)
    (s : TableState) :
    (p.loading = true →
      renderTableContent host heap p s =
          [.loading (p.columns.length + if p.selectable then 1 else 0)] ∧
        (∀ b ∈ renderTableContent host heap p s, b.checkbox? = none ∧ b.row? = none) ∧
        displayedRows host heap p s = [] ∧
        ∀ c : Column, c.sortable = true → headerClick p s c = handleSort s c.dataIndex) ∧
    (p.loading = false → p.data = [] →
      renderTableContent host heap p s =
          [.noData (p.columns.length + if p.selectable then 1 else 0)] ∧
        (∀ b ∈ renderTableContent host heap p s, b.checkbox? = none ∧ b.row? = none) ∧
        displayedRows host heap p s = []) := by
  constructor
  · intro hl
    refine ⟨by simp [renderTableContent, hl], ?_, ?_, ?_⟩
    · intro b hb
      simp [renderTableContent, hl] at hb
      subst hb
      exact ⟨rfl, rfl⟩
    · simp [displayedRows, renderTableContent, hl, BodyRow.row?]
    · intro c hc
      simp [headerClick, hc]
  · intro hl hd
    refine ⟨by simp [renderTableContent, hl, hd], ?_, ?_⟩
    · intro b hb
      simp [renderTableContent, hl, hd] at hb
      subst hb
      exact ⟨rfl, rfl⟩
    · simp [displayedRows, renderTableContent, hl, hd, BodyRow.row?]

/-- Witness of C6 (amended) on the demo table while loading and on an empty table. -/
theorem renderTableContent_placeholders_witness :
    renderTableContent exampleHost userHeap loadingProps {} = [.loading 4] ∧
    renderTableContent exampleHost userHeap { userProps with data := [] } {} = [.noData 4] :=
  ⟨((renderTableContent_placeholders exampleHost userHeap loadingProps {}).1 rfl).1,
   ((renderTableContent_placeholders exampleHost userHeap { userProps with data := [] } {}).2
      rfl rfl).1⟩

/-! ## Sorting, concrete cases -/

/-- C2, failing input: with the empty string as accessor, a click on the sortable header sets
the sort state to that accessor ascending and the header reports it, but the rows are displayed
in the supplied order, which is not ascending. -/
theorem sortedData_empty_accessor :
    headerClick { data := [1, 2], columns := [blankColumn] } {} blankColumn =
      { sortColumn := some "", sortDirection := some .asc } ∧
    ariaSort { sortColumn := some "", sortDirection := some .asc } blankColumn = "asc" ∧
    sortedData exampleHost blankHeap [1, 2]
      { sortColumn := some "", sortDirection := some .asc } = [1, 2] ∧
    blankHeap 1 "" = .str "b" ∧ blankHeap 2 "" = .str "a" ∧
    ¬ exampleHost.localeCompare "b" "a" ≤ 0 := by
  decide

/-- C3 fails as stated: on the rows 1, 2, 3, of which 1 and 2 have the same role, sorting by
role shows 1, 2, 3 ascending and 3, 1, 2 descending, which is not the reverse 3, 2, 1. -/
theorem sortedData_desc_not_reverse :
    sortedData exampleHost teamHeap [1, 2, 3]
        { sortColumn := some "role", sortDirection := some .asc } = [1, 2, 3] ∧
    sortedData exampleHost teamHeap [1, 2, 3]
        { sortColumn := some "role", sortDirection := some .desc } = [3, 1, 2] ∧
    sortedData exampleHost teamHeap [1, 2, 3]
        { sortColumn := some "role", sortDirection := some .desc } ≠
      (sortedData exampleHost teamHeap [1, 2, 3]
        { sortColumn := some "role", sortDirection := some .asc }).reverse := by
  decide

/-! ## InputField -/

/-- C7: the clear button is rendered exactly when `showClear` is set, the value is not empty,
and the field is neither disabled nor invalid. -/
theorem clearButton_iff (host : Host) (p : InputProps) (s : InputState) :
    (renderInputField host p s).clearButton = true ↔
      p.showClear = true ∧ p.value ≠ "" ∧ p.disabled = false ∧ p.invalid = false := by
  simp [renderInputField, showsClearButton]
  tauto

/-- C8: with a change callback, `handleClear` invokes it exactly once, with the empty string,
focuses the input, and leaves the visibility flag and everything rendered from the props, the
disabled and invalid flags among it, as they are. -/
theorem handleClear_effects (host : Host) (p : InputProps) (s : InputState)
    (hcb : p.onChange = true) :
    (handleClear p s).2.onChangeCalls = [""] ∧
    (handleClear p s).2.focusCalls = 1 ∧
    (handleClear p s).1.isPasswordVisible = s.isPasswordVisible ∧
    renderInputField host p (handleClear p s).1 = renderInputField host p s ∧
    (renderInputField host p (handleClear p s).1).disabled = p.disabled ∧
    (renderInputField host p (handleClear p s).1).ariaInvalid = p.invalid := by
  simp [handleClear, hcb, renderInputField]

/-- Witness of C8 on a field holding `abc`. -/
theorem handleClear_effects_witness :
    abcField.onChange = true ∧ abcField.value = "abc" ∧
    (renderInputField exampleHost abcField {}).clearButton = true ∧
    (handleClear abcField {}).2.onChangeCalls = [""] :=
  ⟨rfl, rfl, by decide, (handleClear_effects exampleHost abcField {} rfl).1⟩

/-- C9 fails as stated: on a disabled password field the toggle is rendered, and activating it
flips the visibility flag and shows the value as plain text. -/
theorem togglePassword_while_disabled :
    disabledPassword.disabled = true ∧
    (renderInputField exampleHost disabledPassword {}).toggleButton = some "Show password" ∧
    (renderInputField exampleHost disabledPassword {}).inputType = "password" ∧
    (togglePassword {}).isPasswordVisible = true ∧
    (renderInputField exampleHost disabledPassword (togglePassword {})).inputType = "text" := by
  decide

/-- C9 (amended): on a disabled field the clear button is not rendered and the input is
disabled, but the password toggle of a password field is still rendered and functional:
activating it flips the visibility flag and with it the type of the input. -/
theorem disabled_affordances (host : Host) (p : InputProps) (s : InputState)
    (hd : p.disabled = true) :
    (renderInputField host p s).clearButton = false ∧
    (renderInputField host p s).disabled = true ∧
    (p.typeName = "password" →
      (renderInputField host p s).toggleButton ≠ none ∧
      (togglePassword s).isPasswordVisible = !s.isPasswordVisible ∧
      (renderInputField host p (togglePassword s)).inputType =
        (if s.isPasswordVisible then "password" else "text") ∧
      (renderInputField host p s).inputType =
        (if s.isPasswordVisible then "text" else "password")) := by
  refine ⟨by simp [renderInputField, showsClearButton, hd], by simp [renderInputField, hd], ?_⟩
  intro ht
  cases hv : s.isPasswordVisible <;>
    simp [renderInputField, showsPasswordToggle, togglePassword, inputType, ht, hv]

/-- Witness of C9 (amended) on a disabled password field. -/
theorem disabled_affordances_witness :
    disabledPassword.disabled = true ∧ disabledPassword.typeName = "password" ∧
    (renderInputField exampleHost disabledPassword {}).clearButton = false ∧
    (renderInputField exampleHost disabledPassword (togglePassword {})).inputType = "text" :=
  ⟨rfl, rfl, (disabled_affordances exampleHost disabledPassword {} rfl).1,
    ((disabled_affordances exampleHost disabledPassword {} rfl).2.2 rfl).2.2.1⟩

set_option maxRecDepth 20000 in
/-- C10 fails as stated: an unrecognised variant and size put the text `undefined` in the class
name, where the defaults put the classes of `outlined` and `md`. -/
theorem inputClassName_fancy :
    (variantClasses fancyField).text exampleHost = "undefined" ∧
    (sizeClasses fancyField).text exampleHost = "undefined" ∧
    (sizeClasses { fancyField with size := none }).text exampleHost = "p-3 text-base" ∧
    inputClassName exampleHost fancyField = baseClasses ++ " undefined undefined pr-10" ∧
    inputClassName exampleHost fancyField ≠
      inputClassName exampleHost { fancyField with variant := none, size := none } := by
  decide

/-- C10 (amended): a variant or size that is neither recognised nor the name of an inherited
member contributes the text `undefined` to the class name, while the defaults `outlined` and
`md` apply when the prop is omitted. -/
theorem inputClassName_unrecognised (host : Host) (p : InputProps) :
    (p.variantName ∉ ["outlined", "filled", "ghost"] → p.variantName ∉ inheritedKeys →
      (variantClasses p).text host = "undefined") ∧
    (p.sizeName ∉ ["sm", "md", "lg"] → p.sizeName ∉ inheritedKeys →
      (sizeClasses p).text host = "undefined") ∧
    (p.variant = none → variantClasses p = variantClasses { p with variant := some "outlined" }) ∧
    (p.size = none → sizeClasses p = sizeClasses { p with size := some "md" }) ∧
    inputClassName host p =
      baseClasses ++ " " ++ (variantClasses p).text host ++ " " ++ (sizeClasses p).text host ++
        " pr-10" := by
  refine ⟨?_, ?_, ?_, ?_, rfl⟩
  · intro h1 h2
    simp only [List.mem_cons, List.mem_singleton, List.not_mem_nil, or_false, not_or] at h1
    obtain ⟨a, b, c⟩ := h1
    simp [variantClasses, member, variantTable, List.lookup, beq_false_of_ne a,
      beq_false_of_ne b, beq_false_of_ne c, h2, Member.text]
  · intro h1 h2
    simp only [List.mem_cons, List.mem_singleton, List.not_mem_nil, or_false, not_or] at h1
    obtain ⟨a, b, c⟩ := h1
    simp [sizeClasses, member, sizeTable, List.lookup, beq_false_of_ne a,
      beq_false_of_ne b, beq_false_of_ne c, h2, Member.text]
  · intro h
    simp [variantClasses, InputProps.variantName, h, variantTable]
  · intro h
    simp [sizeClasses, InputProps.sizeName, h]

/-- Witness of C10 (amended) on a field with variant `fancy` and size `xl`. -/
theorem inputClassName_unrecognised_witness :
    (variantClasses fancyField).text exampleHost = "undefined" ∧
    (sizeClasses fancyField).text exampleHost = "undefined" :=
  ⟨(inputClassName_unrecognised exampleHost fancyField).1 (by decide) (by decide),
   (inputClassName_unrecognised exampleHost fancyField).2.1 (by decide) (by decide)⟩

end Assignment
